import Mathlib

/-!
Verification of the conversation-context assembly and cost/usage accounting
engine of the `ai_labs` repository (web variant `src/AI_2/agent.js`,
`helpers.js`, `pricing.js`; iOS variant `src/AI_1/AI_1/OpenAIClient.swift`).

Embedding conventions:
* A JavaScript number is modelled as an integer (`Int`) where the program
  treats it as an index, a token count or a character budget, and as a
  rational (`Rat`) where it is a cost, a temperature or a duration; a value
  that fails the program's `Number.isFinite` / `typeof` checks is `none` in
  an `Option` field.  Floating-point rounding is outside the model.
* `Number(x) || d` (default on NaN and on the falsy 0) is `jsOr`.
* A JavaScript string is a `String`; `s.slice` on a string is modelled on
  its character list.
* External effects (HTTP fetch, `Date`, `crypto.randomUUID`) are supplied
  by explicit environment parameters: a fetch result is a value of
  `FetchResult`, timestamps and fresh ids are plain string parameters.
  The request bodies are assembled faithfully, but the environment's
  response is an arbitrary value not computed from them.
* The `_summarizeLock` promise chain is modelled explicitly: a
  `LockedAgent` carries the settled state of the lock, and a pass over a
  rejected lock replays the stale rejection without running the loop,
  exactly as `.then` without a rejection handler behaves.
-/

namespace AiLabs

/-- `Number(x) || d`: `x = none` models a value whose `Number(...)` is NaN;
the falsy `0` also falls back to the default, as in JavaScript. -/
def jsOr (x : Option ℤ) (d : ℤ) : ℤ :=
  match x with
  | none => d
  | some v => if v = 0 then d else v

/-- `x || d` on an optional string: `none` and the falsy `""` give `d`. -/
def jsStrOr (x : Option String) (d : String) : String :=
  match x with
  | none => d
  | some s => if s = "" then d else s

/-- `array.slice(start, stop)` with JavaScript index semantics:
negative indices count from the end, both ends clamp to the array. -/
def jsSlice {α : Type} (l : List α) (start stop : ℤ) : List α :=
  let n : ℤ := l.length
  let s : ℤ := if start < 0 then max 0 (n + start) else min start n
  let e : ℤ := if stop < 0 then max 0 (n + stop) else min stop n
  (l.take e.toNat).drop s.toNat

/-- Leading and trailing whitespace removal on a character list. -/
def trimChars (l : List Char) : List Char :=
  ((l.dropWhile Char.isWhitespace).reverse.dropWhile Char.isWhitespace).reverse

/-- `s.trim()` / Swift's whitespace-and-newlines trimming, modelled on
the character list (the library's byte-position `String.trim` is not
kernel-computable, which concrete evaluations here need). -/
def jsTrim (s : String) : String :=
  String.mk (trimChars s.toList)

/-- Character-list prefix test (`String.startsWith` is not
kernel-computable; this structural version is). -/
def charsStartWith : List Char → List Char → Bool
  | _, [] => true
  | [], _ :: _ => false
  | c :: cs, p :: ps => c == p && charsStartWith cs ps

/-- `s.startsWith(p)`. -/
def jsStartsWith (s p : String) : Bool :=
  charsStartWith s.toList p.toList

/-! ## Data model (§3 of the spec): turns, summaries, totals, policy, state -/

/-- `m.role`, restricted to the two values the history filter accepts. -/
inductive Role where
  | user
  | assistant
deriving DecidableEq, Repr

/-- `m.role.toUpperCase()` as used by the context build. -/
def Role.upper : Role → String
  | .user => "USER"
  | .assistant => "ASSISTANT"

/-- `"User" / "Assistant"` as used by the summarization transcript. -/
def Role.capitalized : Role → String
  | .user => "User"
  | .assistant => "Assistant"

/-- One history item (schema v2/v4 of `agent.js`): optional per-request
usage, cost and duration fields are `none` when absent. -/
structure Turn where
  role : Role
  text : String
  /-- the `at` timestamp field (`at` is reserved in Lean) -/
  atIso : String
  model : Option String := none
  requestInputTokens : Option ℤ := none
  requestOutputTokens : Option ℤ := none
  requestTotalTokens : Option ℤ := none
  costRub : Option ℚ := none
  durationSeconds : Option ℤ := none
deriving DecidableEq, Repr

/-- One stored summary chunk: `{ id, fromIndex, toIndex, at, text }`. -/
structure Summary where
  id : String
  fromIndex : ℤ
  toIndex : ℤ
  /-- the `at` timestamp field (`at` is reserved in Lean) -/
  atIso : String
  text : String
deriving DecidableEq, Repr

/-- The separate summarization accounting counters. -/
structure SummaryTotals where
  summaryRequests : ℤ
  summaryInputTokens : ℤ
  summaryOutputTokens : ℤ
  summaryTotalTokens : ℤ
  summaryCostRub : ℚ
deriving DecidableEq, Repr

/-- `this.contextPolicy`.  A field is `none` when its runtime value is not
a number (resp. not a string): the code re-validates on every read. -/
structure ContextPolicy where
  keepLastMessages : Option ℤ
  chunkSize : Option ℤ
  maxSummaryChars : Option ℤ
  summaryModel : Option String
  summaryTemperature : Option ℚ
deriving DecidableEq, Repr

/-- The constructor's default policy (`0.2` is the rational 1/5). -/
def defaultContextPolicy : ContextPolicy :=
  { keepLastMessages := some 12
    chunkSize := some 10
    maxSummaryChars := some 1400
    summaryModel := some "gpt-3.5-turbo"
    summaryTemperature := some (mkRat 1 5) }

/-- The whole `Agent` instance state (web variant, schema v4).
`apiKey = ""` models the missing/falsy credential. -/
structure AgentState where
  baseUrl : String
  apiKey : String
  model : String
  temperature : ℚ
  history : List Turn
  summaries : List Summary
  summaryTotals : SummaryTotals
  contextPolicy : ContextPolicy
  systemPreamble : String
deriving DecidableEq, Repr

/-! ## Response DTO (§6): the decoded JSON reply of the model endpoint -/

/-- One entry of an output item's `content` list; `type`/`text` are `none`
when the field is missing or not a string.  A `null` list entry behaves,
under every predicate the code applies, exactly like an entry with both
fields `none`, so the embedding keeps entries unwrapped. -/
structure ContentItem where
  type : Option String := none
  text : Option String := none
deriving DecidableEq, Repr

/-- One entry of the reply's `output` list. -/
structure OutputItem where
  type : Option String := none
  role : Option String := none
  content : Option (List ContentItem) := none
deriving DecidableEq, Repr

/-- The raw `usage` sub-object; a field is `none` when missing or not a
finite number. -/
structure UsageRaw where
  input_tokens : Option ℤ := none
  output_tokens : Option ℤ := none
  total_tokens : Option ℤ := none
deriving DecidableEq, Repr

/-- The decoded reply body.  `created_at` / `completed_at` are integer
epoch seconds. -/
structure ResponseDTO where
  output : Option (List OutputItem) := none
  usage : Option UsageRaw := none
  model : Option String := none
  created_at : Option ℤ := none
  completed_at : Option ℤ := none
deriving DecidableEq, Repr

/-- The validated usage triple produced by the usage normalizer. -/
structure UsageTriple where
  inputTokens : ℤ
  outputTokens : ℤ
  totalTokens : ℤ
deriving DecidableEq, Repr

/-- `normalizeUsage` (`helpers.js`): all three numeric fields must be
present and finite, otherwise absent. -/
def normalizeUsage (dto : ResponseDTO) : Option UsageTriple :=
  match dto.usage with
  | none => none
  | some u =>
    match u.input_tokens, u.output_tokens, u.total_tokens with
    | some i, some o, some t => some ⟨i, o, t⟩
    | _, _, _ => none

/-! ## Pricing table (`pricing.js`) -/

namespace OpenAIModelPricing

/-- The rate rows, ₽ per 1M tokens: `rates[k]` of the source. -/
def rates (k : String) : Option (ℚ × ℚ) :=
  if k = "gpt-5.2" then some (531, 4245)
  else if k = "gpt-4.1" then some (516, 2062)
  else if k = "gpt-3.5-turbo" then some (129, 387)
  else none

/-- `key(model)`: map a model name to a rate-table key by testing known
key prefixes; the falsy empty string and unknown names give `none`. -/
def key (model : String) : Option String :=
  if model = "" then none
  else if jsStartsWith model "gpt-5.2" then some "gpt-5.2"
  else if jsStartsWith model "gpt-4.1" then some "gpt-4.1"
  else if jsStartsWith model "gpt-3.5-turbo" then some "gpt-3.5-turbo"
  else none

/-- `costRub(model, inputTokens, outputTokens)`: total request cost,
absent for unknown models. -/
def costRub (model : String) (inputTokens outputTokens : ℤ) : Option ℚ :=
  match key model with
  | none => none
  | some k =>
    match rates k with
    | none => none
    | some r =>
      some ((inputTokens : ℚ) / 1000000 * r.1 + (outputTokens : ℚ) / 1000000 * r.2)

/-- `costPartsRub`: the split form `(inCost, outCost, total, key)`. -/
def costPartsRub (model : String) (inputTokens outputTokens : ℤ) :
    Option (ℚ × ℚ × ℚ × String) :=
  match key model with
  | none => none
  | some k =>
    match rates k with
    | none => none
    | some r =>
      let inCost := (inputTokens : ℚ) / 1000000 * r.1
      let outCost := (outputTokens : ℚ) / 1000000 * r.2
      some (inCost, outCost, inCost + outCost, k)

end OpenAIModelPricing

/-! ## Totals aggregator (`helpers.js`) -/

/-- The result shape of `computeHistoryTotals`. -/
structure HistoryTotals where
  requestInputTokens : ℤ
  requestOutputTokens : ℤ
  requestTotalTokens : ℤ
  costRub : ℚ
deriving DecidableEq, Repr

/-- One iteration of the `computeHistoryTotals` loop: non-`user` turns
are skipped (`continue`), and each `Number.isFinite` field adds its
value. -/
def historyTotalsStep (acc : HistoryTotals) (m : Turn) : HistoryTotals :=
  if m.role = .user then
    { requestInputTokens :=
        match m.requestInputTokens with
        | some v => acc.requestInputTokens + v
        | none => acc.requestInputTokens
      requestOutputTokens :=
        match m.requestOutputTokens with
        | some v => acc.requestOutputTokens + v
        | none => acc.requestOutputTokens
      requestTotalTokens :=
        match m.requestTotalTokens with
        | some v => acc.requestTotalTokens + v
        | none => acc.requestTotalTokens
      costRub :=
        match m.costRub with
        | some v => acc.costRub + v
        | none => acc.costRub }
  else acc

/-- `computeHistoryTotals(history)`: usage is summed only off `user`-role
turns (the request anchor); a field missing on a turn contributes nothing. -/
def computeHistoryTotals (history : List Turn) : HistoryTotals :=
  history.foldl historyTotalsStep ⟨0, 0, 0, 0⟩

/-! ## Answer extractors (web `agent.js` and iOS `OpenAIClient.swift`) -/

/-- `Agent.extractAnswerText(dto)` of the web variant: first assistant
message, first `output_text` entry carrying a string text, trimmed; the
final `(t || "").trim() || null` turns the empty trimmed text into absent. -/
def extractAnswerText (dto : ResponseDTO) : Option String :=
  let output := dto.output.getD []
  let assistantItem :=
    output.find? (fun it => it.type == some "message" && it.role == some "assistant")
  let content :=
    match assistantItem with
    | some it => it.content.getD []
    | none => []
  let textItem :=
    content.find? (fun c => c.type == some "output_text" && c.text.isSome)
  let t := (textItem.bind ContentItem.text).getD ""
  let s := jsTrim t
  if s = "" then none else some s

/-- `OpenAIClient.extractAnswerText(from:)` of the iOS variant: same path,
but the optional chain keeps whatever text the first `output_text` entry
carries (possibly `nil`) and only trims it — an empty trimmed text is
returned as `""`, not as absent. -/
def extractAnswerTextIOS (dto : ResponseDTO) : Option String :=
  match dto.output with
  | none => none
  | some output =>
    let assistantItem :=
      output.find? (fun it => it.type == some "message" && it.role == some "assistant")
    match assistantItem with
    | none => none
    | some it =>
      let answer :=
        ((it.content.getD []).find? (fun c => c.type == some "output_text")).bind
          ContentItem.text
      answer.map jsTrim

/-! ## Persisted state (§4.7): `exportState` / `importState`

The exported blob is the JSON shape of `exportState`; on import every
field the code checks with `typeof` / `Number.isFinite` / `Array.isArray`
is an `Option` (`none` models a missing or wrongly-typed value).  A turn
blob's `role` is `none` when the raw value is neither `"user"` nor
`"assistant"`. -/

/-- The blob's `config` object; `apiKey` is carried so that the theorems
can state that export always emits it absent and import never reads it. -/
structure ExportedConfig where
  baseUrl : Option String := none
  apiKey : Option String := none
  model : Option String := none
  temperature : Option ℚ := none
deriving DecidableEq, Repr

/-- One entry of the blob's `summaries` array. -/
structure ExportedSummary where
  id : Option String := none
  fromIndex : Option ℤ := none
  toIndex : Option ℤ := none
  atIso : Option String := none
  text : Option String := none
deriving DecidableEq, Repr

/-- One entry of the blob's `history` array. -/
structure ExportedTurn where
  role : Option Role := none
  text : Option String := none
  atIso : Option String := none
  model : Option String := none
  requestInputTokens : Option ℤ := none
  requestOutputTokens : Option ℤ := none
  requestTotalTokens : Option ℤ := none
  costRub : Option ℚ := none
  durationSeconds : Option ℤ := none
deriving DecidableEq, Repr

/-- The blob's `summaryTotals` object. -/
structure ExportedTotals where
  summaryRequests : Option ℤ := none
  summaryInputTokens : Option ℤ := none
  summaryOutputTokens : Option ℤ := none
  summaryTotalTokens : Option ℤ := none
  summaryCostRub : Option ℚ := none
deriving DecidableEq, Repr

/-- The persisted blob.  The source spread-merges `state.contextPolicy`
over the current policy field by field; an exported policy is complete, so
the merge is modelled as whole-policy replacement. -/
structure ExportedState where
  version : ℤ
  savedAt : String
  config : Option ExportedConfig := none
  systemPreamble : Option String := none
  contextPolicy : Option ContextPolicy := none
  summaries : Option (List ExportedSummary) := none
  summaryTotals : Option ExportedTotals := none
  history : Option (List ExportedTurn) := none
deriving DecidableEq, Repr

/-- How `exportState` serializes one summary (plain JSON of the record). -/
def exportSummary (s : Summary) : ExportedSummary :=
  { id := some s.id, fromIndex := some s.fromIndex, toIndex := some s.toIndex
    atIso := some s.atIso, text := some s.text }

/-- How `exportState` serializes one turn (plain JSON of the record). -/
def exportTurn (m : Turn) : ExportedTurn :=
  { role := some m.role, text := some m.text, atIso := some m.atIso
    model := m.model
    requestInputTokens := m.requestInputTokens
    requestOutputTokens := m.requestOutputTokens
    requestTotalTokens := m.requestTotalTokens
    costRub := m.costRub
    durationSeconds := m.durationSeconds }

/-- `exportState()` (schema v4): the credential slot is emitted as absent
(`apiKey: null`) regardless of the runtime value; `savedAt` is the
caller-side clock value. -/
def exportState (st : AgentState) (savedAt : String) : ExportedState :=
  { version := 4
    savedAt := savedAt
    config := some
      { baseUrl := some st.baseUrl, apiKey := none
        model := some st.model, temperature := some st.temperature }
    systemPreamble := some st.systemPreamble
    contextPolicy := some st.contextPolicy
    summaries := some (st.summaries.map exportSummary)
    summaryTotals := some
      { summaryRequests := some st.summaryTotals.summaryRequests
        summaryInputTokens := some st.summaryTotals.summaryInputTokens
        summaryOutputTokens := some st.summaryTotals.summaryOutputTokens
        summaryTotalTokens := some st.summaryTotals.summaryTotalTokens
        summaryCostRub := some st.summaryTotals.summaryCostRub }
    history := some (st.history.map exportTurn) }

/-- The `importState` summaries pass: keep entries whose `text` is a
string, default a malformed `id`/`at` to a fresh id / the current time
(the source draws one per entry; no claim observes these defaults, so a
single representative `freshId`/`now` value stands for them) and a
non-finite index to 0.  The `getD ""` on `text` is unreachable after the
filter. -/
def importSummaries (now freshId : String) (l : List ExportedSummary) : List Summary :=
  (l.filter (fun s => s.text.isSome)).map (fun s =>
    { id := s.id.getD freshId
      fromIndex := s.fromIndex.getD 0
      toIndex := s.toIndex.getD 0
      atIso := s.atIso.getD now
      text := s.text.getD "" })

/-- The `importState` history pass: keep entries with a recognized role
and a string text; optional per-turn fields survive exactly when finite
(strings: when strings). -/
def importHistory (now : String) (l : List ExportedTurn) : List Turn :=
  (l.filter (fun m => m.role.isSome && m.text.isSome)).map (fun m =>
    { role := m.role.getD .user
      text := m.text.getD ""
      atIso := m.atIso.getD now
      model := m.model
      requestInputTokens := m.requestInputTokens
      requestOutputTokens := m.requestOutputTokens
      requestTotalTokens := m.requestTotalTokens
      costRub := m.costRub
      durationSeconds := m.durationSeconds })

/-- `importState(state)` (tolerant merge).  The credential is never read
from the blob.  The guard for a non-object `state` (import is a no-op)
is outside this typed embedding. -/
def importState (st : AgentState) (state : ExportedState) (now freshId : String) :
    AgentState :=
  let st1 :=
    match state.systemPreamble with
    | some p => { st with systemPreamble := p }
    | none => st
  let st2 :=
    match state.config with
    | some c =>
      { st1 with
        baseUrl := c.baseUrl.getD st1.baseUrl
        model := c.model.getD st1.model
        temperature := c.temperature.getD st1.temperature }
    | none => st1
  let st3 :=
    match state.contextPolicy with
    | some p => { st2 with contextPolicy := p }
    | none => st2
  let st4 :=
    match state.summaries with
    | some l => { st3 with summaries := importSummaries now freshId l }
    | none => st3
  let st5 :=
    match state.summaryTotals with
    | some t =>
      { st4 with summaryTotals :=
        { summaryRequests := t.summaryRequests.getD 0
          summaryInputTokens := t.summaryInputTokens.getD 0
          summaryOutputTokens := t.summaryOutputTokens.getD 0
          summaryTotalTokens := t.summaryTotalTokens.getD 0
          summaryCostRub := t.summaryCostRub.getD 0 } }
    | none => st4
  match state.history with
  | some l => { st5 with history := importHistory now l }
  | none => st5

/-! ## Summarization pipeline (§4.6) -/

/-- The `maxTo` fold of `_getSummarizedUntilIndexExclusive`: maximum
`toIndex`, starting from −1.  Every stored `toIndex` is a finite integer
in this embedding, so the `Number.isFinite` guard always passes. -/
def maxToIndex (l : List Summary) : ℤ :=
  l.foldl (fun acc s => max acc s.toIndex) (-1)

/-- `_getSummarizedUntilIndexExclusive()`: one past the highest stored
`toIndex`, 0 when there are no summaries. -/
def summarizedUntilExclusive (st : AgentState) : ℤ :=
  maxToIndex st.summaries + 1

/-- The effective retained-tail size:
`Math.max(0, Number(policy.keepLastMessages) || 0)`. -/
def effectiveTailSize (p : ContextPolicy) : ℤ :=
  max 0 (jsOr p.keepLastMessages 0)

/-- The effective chunk size:
`Math.max(2, Number(policy.chunkSize) || 10)`. -/
def effectiveChunkSize (p : ContextPolicy) : ℤ :=
  max 2 (jsOr p.chunkSize 10)

/-- The `{ fromIndex, toIndex }` record `_needsSummarize` returns. -/
structure SumRange where
  fromIndex : ℤ
  toIndex : ℤ
deriving DecidableEq, Repr

/-- `_needsSummarize()`: the eligibility check. -/
def needsSummarize (st : AgentState) : Option SumRange :=
  let keepLast := effectiveTailSize st.contextPolicy
  let chunkSize := effectiveChunkSize st.contextPolicy
  let total : ℤ := st.history.length
  if total ≤ keepLast then none
  else
    let unsummarizedStart := max 0 (total - keepLast)
    let summarizedUntil := summarizedUntilExclusive st
    if summarizedUntil + chunkSize ≤ unsummarizedStart then
      some { fromIndex := summarizedUntil, toIndex := summarizedUntil + chunkSize - 1 }
    else none

/-- `_compactText(text, maxChars)`: trim; keep if within the effective
budget `m = max(200, maxChars || 1400)`; otherwise first ⌊0.75·m⌋ and last
⌊0.2·m⌋ characters joined by an ellipsis line, hard-truncated to `m`.
Slicing is on the character list (JS slices UTF-16 units). -/
def compactText (text : String) (maxChars : Option ℤ) : String :=
  let m : ℤ := max 200 (jsOr maxChars 1400)
  let t : List Char := trimChars text.toList
  if (t.length : ℤ) ≤ m then String.mk t
  else
    let headPart := t.take (m * 3 / 4).toNat
    let tailPart := t.drop (t.length - (m / 5).toNat)
    String.mk ((headPart ++ "\n…\n".toList ++ tailPart).take m.toNat)

/-- `_chunkToTranscript(messages)`: `Role: text` lines, skipping turns
whose trimmed text is empty.  The JS guard is on the falsy raw string;
`m.text` is a string here, so falsy means `""`. -/
def chunkToTranscript (messages : List Turn) : String :=
  let lines := messages.foldr
    (fun m acc =>
      let txt := jsTrim m.text
      if txt = "" then acc else (m.role.capitalized ++ ": " ++ txt) :: acc)
    []
  String.intercalate "\n" lines

/-- The fixed summarization instruction of `_summarizeChunkWithLLM`. -/
def summarizeInstruction : String :=
  "Ты summarizer. Сожми диалог в структурированное summary.\n" ++
  "Правила:\n" ++
  "- 6–12 буллетов, коротко.\n" ++
  "- Сохрани: цели пользователя, важные факты, решения/выводы, ограничения, договорённости.\n" ++
  "- Не добавляй выдуманных деталей.\n" ++
  "- Пиши по-русски.\n" ++
  "Верни только summary, без прелюдий.\n"

/-- The request `input` string of one summarization call. -/
def summarizeInput (messages : List Turn) (r : SumRange) : String :=
  "SYSTEM: " ++ summarizeInstruction ++ "\n" ++
  "CONTEXT: Messages #" ++ toString r.fromIndex ++ "..#" ++ toString r.toIndex ++ "\n" ++
  "TRANSCRIPT:\n" ++ chunkToTranscript messages ++ "\n" ++
  "SUMMARY:\n"

/-- The outcome of one `fetch` round trip, after JSON decoding: a non-2xx
status with its body text, or the decoded reply. -/
inductive FetchResult where
  | httpError (status : ℤ) (body : String)
  | ok (dto : ResponseDTO)

/-- The environment of one ensure-coverage pass: the fetch outcome for
the `k`-th summarization call (given the assembled request input), plus
the clock / id source for the `k`-th stored summary. -/
structure SummarizeEnv where
  resp : ℕ → String → FetchResult
  newId : ℕ → String
  now : ℕ → String

/-- `_summarizeChunkWithLLM(messages, {fromIndex, toIndex})`: fail on a
missing credential, a non-2xx status or an unusable answer text; on
success account usage/cost into the summarization totals (only) and
return the raw summary text with the updated totals.  `resp.statusText`
is not modelled; the error carries the body text. -/
def summarizeChunkWithLLM (st : AgentState) (messages : List Turn) (r : SumRange)
    (fetched : String → FetchResult) : Except String (String × SummaryTotals) :=
  if st.apiKey = "" then .error "API key пустой (нужен для суммаризации)." else
  let input := summarizeInput messages r
  match fetched input with
  | .httpError status body =>
    .error ("Summarize HTTP " ++ toString status ++ ": " ++ body)
  | .ok dto =>
    match extractAnswerText dto with
    | none => .error "Summarize: пустой output_text."
    | some summaryText =>
      let usage := normalizeUsage dto
      let modelName := jsStrOr dto.model
        (jsStrOr st.contextPolicy.summaryModel "gpt-3.5-turbo")
      let costRub := usage.bind (fun u =>
        OpenAIModelPricing.costRub modelName u.inputTokens u.outputTokens)
      let totals :=
        match usage with
        | none => st.summaryTotals
        | some u =>
          { summaryRequests := st.summaryTotals.summaryRequests + 1
            summaryInputTokens := st.summaryTotals.summaryInputTokens + u.inputTokens
            summaryOutputTokens := st.summaryTotals.summaryOutputTokens + u.outputTokens
            summaryTotalTokens := st.summaryTotals.summaryTotalTokens + u.totalTokens
            summaryCostRub :=
              match costRub with
              | some c => st.summaryTotals.summaryCostRub + c
              | none => st.summaryTotals.summaryCostRub }
      .ok (summaryText, totals)

/-- One loop body of `_ensureSummariesUpToDate` after a successful chunk
call: append the compacted summary for range `r` and adopt the updated
totals.  History, policy and config are untouched. -/
def applyChunk (st : AgentState) (r : SumRange) (text : String)
    (totals : SummaryTotals) (id atIso : String) : AgentState :=
  { st with
    summaries := st.summaries ++
      [{ id := id, fromIndex := r.fromIndex, toIndex := r.toIndex
         atIso := atIso, text := compactText text st.contextPolicy.maxSummaryChars }]
    summaryTotals := totals }

/-- The `while` loop of `_ensureSummariesUpToDate`, structurally recursive
on explicit fuel; `ensureFuel` below is provably enough, so the fuel-out
branch is unreachable from `ensureSummariesUpToDate`.  The pass returns
the state as mutated so far together with the propagated error, if any
(the thrown error leaves already-stored chunks in place, as in the
source). -/
def ensureAux (env : SummarizeEnv) : ℕ → ℕ → AgentState → AgentState × Option String
  | 0, _, st => (st, none)
  | fuel + 1, k, st =>
    match needsSummarize st with
    | none => (st, none)
    | some r =>
      let chunk := jsSlice st.history r.fromIndex (r.toIndex + 1)
      match summarizeChunkWithLLM st chunk r (env.resp k) with
      | .error e => (st, some e)
      | .ok (text, totals) =>
        ensureAux env fuel (k + 1) (applyChunk st r text totals (env.newId k) (env.now k))

/-- Fuel that dominates the loop's iteration count: each produced chunk
advances `summarizedUntilExclusive` by at least 2 while it stays at most
the history length. -/
def ensureFuel (st : AgentState) : ℕ :=
  ((st.history.length : ℤ) - summarizedUntilExclusive st).toNat + 1

/-- The body of one `_ensureSummariesUpToDate()` pass — the callback the
source chains onto `this._summarizeLock` — run to completion (or to the
first failure).  This is the loop as if the lock were fulfilled; the
lock itself, including the rejected state a failed pass leaves behind,
is `ensureSummariesWithLock` below. -/
def ensureSummariesUpToDate (env : SummarizeEnv) (st : AgentState) :
    AgentState × Option String :=
  ensureAux env (ensureFuel st) 0 st

/-- The agent together with its `_summarizeLock` promise: `none` models
a fulfilled lock, `some e` a lock left rejected with error `e`.  The
lock is runtime-only state: `exportState` never includes it and neither
`importState` nor `reset` clears it. -/
structure LockedAgent where
  state : AgentState
  lockError : Option String
deriving DecidableEq, Repr

/-- `_ensureSummariesUpToDate()` as the caller observes it, lock
included: the source runs
`this._summarizeLock = this._summarizeLock.then(async () => loop)` and
returns that chained promise, with no rejection handler anywhere.  A
`.then` on a rejected promise never runs its callback and yields a
promise rejected with the same error, so once a pass has failed, every
later pass returns the stale error without running the loop at all; on
a fulfilled lock the loop runs and its outcome becomes the new lock
state. -/
def ensureSummariesWithLock (env : SummarizeEnv) (la : LockedAgent) :
    LockedAgent × Option String :=
  match la.lockError with
  | some e => ({ state := la.state, lockError := some e }, some e)
  | none =>
    let r := ensureSummariesUpToDate env la.state
    ({ state := r.1, lockError := r.2 }, r.2)

/-! ## Context build and main send (`agent.js`, web v4 variant) -/

/-- The pure prompt-assembly part of `_buildContextInput` (the source
first awaits `_ensureSummariesUpToDate`; `send` below does so before
calling this). -/
def buildContextInput (st : AgentState) (nextUserText : String) : String :=
  let keepLast := effectiveTailSize st.contextPolicy
  let total : ℤ := st.history.length
  let tailStart := max 0 (total - keepLast)
  let tail := st.history.drop tailStart.toNat
  let parts : List String :=
    ["SYSTEM: " ++ st.systemPreamble] ++
    (if st.summaries.length > 0 then
      "CONTEXT SUMMARY (older messages):" :: st.summaries.map (fun s => "- " ++ s.text)
     else []) ++
    (if tail.length > 0 then
      "RECENT MESSAGES:" :: tail.map (fun m => m.role.upper ++ ": " ++ m.text)
     else []) ++
    ["USER: " ++ nextUserText, "ASSISTANT:"]
  String.intercalate "\n" parts

/-- The value `send` resolves with. -/
structure SendResult where
  answer : String
  model : String
  usage : Option UsageTriple
  durationSeconds : Option ℤ
  costRub : Option ℚ
deriving DecidableEq, Repr

/-- The environment of one `send` call: the pre-context ensure pass, the
main chat fetch outcome, the post-append ensure pass, and the two turn
timestamps. -/
structure SendEnv where
  sumEnv : SummarizeEnv
  mainResp : FetchResult
  sumEnvAfter : SummarizeEnv
  nowUser : String
  nowAssistant : String

/-- The request/response pair a successful exchange appends: the user
turn backfilled with the request stats (the `if (usage)` block — nothing
is attached when usage is absent) and the assistant turn, which always
carries the model name and, when present, the same usage/cost/duration
values. -/
def exchangeTurns (st : AgentState) (userText nowUser nowAssistant : String)
    (dto : ResponseDTO) (answerText : String) : Turn × Turn :=
  let usage := normalizeUsage dto
  let durationSeconds : Option ℤ :=
    match dto.created_at, dto.completed_at with
    | some c, some d => some (d - c)
    | _, _ => none
  let modelName := jsStrOr dto.model st.model
  let costRub := usage.bind (fun u =>
    OpenAIModelPricing.costRub modelName u.inputTokens u.outputTokens)
  let userMsg : Turn := { role := .user, text := userText, atIso := nowUser }
  let userFinal : Turn :=
    match usage with
    | some u =>
      { userMsg with
        model := some modelName
        requestInputTokens := some u.inputTokens
        requestOutputTokens := some u.outputTokens
        requestTotalTokens := some u.totalTokens
        costRub := costRub
        durationSeconds := durationSeconds }
    | none => userMsg
  let assistantMsg : Turn :=
    { role := .assistant, text := answerText, atIso := nowAssistant
      model := some modelName
      requestInputTokens := usage.map UsageTriple.inputTokens
      requestOutputTokens := usage.map UsageTriple.outputTokens
      requestTotalTokens := usage.map UsageTriple.totalTokens
      costRub := costRub
      durationSeconds := durationSeconds }
  (userFinal, assistantMsg)

/-- The value a successful `send` resolves with, from the same decoded
reply quantities. -/
def sendOutcome (st : AgentState) (dto : ResponseDTO) (answerText : String) :
    SendResult :=
  let usage := normalizeUsage dto
  let durationSeconds : Option ℤ :=
    match dto.created_at, dto.completed_at with
    | some c, some d => some (d - c)
    | _, _ => none
  let modelName := jsStrOr dto.model st.model
  let costRub := usage.bind (fun u =>
    OpenAIModelPricing.costRub modelName u.inputTokens u.outputTokens)
  { answer := answerText, model := modelName, usage := usage
    durationSeconds := durationSeconds, costRub := costRub }

/-- `send(userText)` of the summary-capable agent: validate, ensure
coverage, append the user turn, fetch, extract, backfill the user turn
with usage/cost/duration, append the assistant turn carrying the same
request stats, ensure coverage again, and resolve.  The returned state
is the agent after the call, also on the error paths. -/
def send (env : SendEnv) (st : AgentState) (userText : String) :
    AgentState × Except String SendResult :=
  if st.apiKey = "" then (st, .error "API key пустой.")
  else if jsTrim userText = "" then (st, .error "Пустое сообщение.")
  else
    match ensureSummariesUpToDate env.sumEnv st with
    | (st1, some e) => (st1, .error e)
    | (st1, none) =>
      let _input := buildContextInput st1 userText
      let userMsg : Turn := { role := .user, text := userText, atIso := env.nowUser }
      let st2 := { st1 with history := st1.history ++ [userMsg] }
      match env.mainResp with
      | .httpError status body =>
        (st2, .error ("HTTP " ++ toString status ++ ": " ++ body))
      | .ok dto =>
        match extractAnswerText dto with
        | none => (st2, .error "Пустой ответ: не нашёл output_text.")
        | some answerText =>
          let pair := exchangeTurns st userText env.nowUser env.nowAssistant dto answerText
          let st3 := { st1 with history := st1.history ++ [pair.1, pair.2] }
          match ensureSummariesUpToDate env.sumEnvAfter st3 with
          | (st4, some e) => (st4, .error e)
          | (st4, none) => (st4, .ok (sendOutcome st dto answerText))

/-! ## Spec-side definitions

These follow the claims' wording (not the code) and are compared with the
code-derived definitions above. -/

/-- Modelled from the spec: `coveredUntil` = "one past the highest
`toIndex` across existing summaries (0 if none)". -/
def specCoveredUntil (l : List Summary) : ℤ :=
  match l with
  | [] => 0
  | s :: rest => rest.foldl (fun acc x => max acc x.toIndex) s.toIndex + 1

/-- The coverage chain: starting at `n`, each summary's range begins
exactly at `n`, is non-empty, and the chain continues one past its end.
`chainFrom 0 l` is the spec's "contiguous partition of a prefix". -/
def chainFrom : ℤ → List Summary → Bool
  | _, [] => true
  | n, s :: rest =>
    decide (s.fromIndex = n) && decide (s.fromIndex ≤ s.toIndex) &&
      chainFrom (s.toIndex + 1) rest

/-- The spec's summary-coverage invariant, as a decidable check. -/
def contiguousFromZero (l : List Summary) : Bool :=
  chainFrom 0 l

/-- Pairwise non-overlap of the stored ranges, as a decidable check. -/
def rangesNonOverlap : List Summary → Bool
  | [] => true
  | s :: rest =>
    rest.all (fun s' => decide (s.toIndex < s'.fromIndex) ||
      decide (s'.toIndex < s.fromIndex)) &&
    rangesNonOverlap rest

/-- Data-model well-formedness of stored summaries: indices are
non-negative (every summary the engine itself creates satisfies this). -/
def wfSummaries (l : List Summary) : Bool :=
  l.all (fun s => decide (0 ≤ s.toIndex))

/-- The `(fromIndex, toIndex)` view of a summaries list. -/
def summariesRanges (l : List Summary) : List (ℤ × ℤ) :=
  l.map (fun s => (s.fromIndex, s.toIndex))

/-- Modelled from the claim: the first output item that is a message
authored by the assistant role. -/
def specFirstAssistant : List OutputItem → Option OutputItem
  | [] => none
  | it :: rest =>
    if it.type = some "message" ∧ it.role = some "assistant" then some it
    else specFirstAssistant rest

/-- Modelled from the amended claim (web variant): the text of the first
content entry of kind plain output text that carries a string text. -/
def specFirstWebText : List ContentItem → Option String
  | [] => none
  | c :: rest =>
    match c.text with
    | some s => if c.type = some "output_text" then some s else specFirstWebText rest
    | none => specFirstWebText rest

/-- Modelled from the amended claim (iOS variant): the first content
entry of kind plain output text, whatever text it carries. -/
def specFirstIOSItem : List ContentItem → Option ContentItem
  | [] => none
  | c :: rest =>
    if c.type = some "output_text" then some c else specFirstIOSItem rest

/-- Modelled from the amended claim: the web extractor's contract — the
trimmed first matching text, absent when the path is missing or the
trimmed text is empty. -/
def specWebExtract (dto : ResponseDTO) : Option String :=
  match specFirstAssistant (dto.output.getD []) with
  | none => none
  | some it =>
    match specFirstWebText (it.content.getD []) with
    | none => none
    | some s => if jsTrim s = "" then none else some (jsTrim s)

/-- Modelled from the amended claim: the iOS extractor's contract — the
trimmed text of the first plain-output-text entry, absent when the path
or the text itself is missing; an empty trimmed text is returned as is. -/
def specIOSExtract (dto : ResponseDTO) : Option String :=
  match dto.output with
  | none => none
  | some out =>
    match specFirstAssistant out with
    | none => none
    | some it =>
      match (specFirstIOSItem (it.content.getD [])).bind ContentItem.text with
      | none => none
      | some s => some (jsTrim s)

/-- One past the end of a coverage chain starting at `n`. -/
def chainNext (n : ℤ) (l : List Summary) : ℤ :=
  l.foldl (fun _ s => s.toIndex + 1) n

/-- The coverage-loop variant: how far the covered prefix is from the
history length. -/
def coverageDebt (st : AgentState) : ℕ :=
  ((st.history.length : ℤ) - summarizedUntilExclusive st).toNat

/-! ## Concrete fixtures for evaluated instances -/

/-- The default used for positional history access in the theorems. -/
def defaultTurn : Turn :=
  { role := .user, text := "", atIso := "" }

/-- A plain user turn. -/
def wTurn : Turn := { role := .user, text := "m", atIso := "t0" }

/-- A reply item: an assistant message with one plain output text. -/
def wAnswerItem : OutputItem :=
  { type := some "message", role := some "assistant"
    content := some [{ type := some "output_text", text := some "S" }] }

/-- A reply carrying only a usable answer text (no usage, no clock). -/
def wDtoAnswer : ResponseDTO := { output := some [wAnswerItem] }

/-- A reply with an answer and usage, under an unpriced model name. -/
def wDtoUsage : ResponseDTO :=
  { output := some [wAnswerItem]
    usage := some { input_tokens := some 7, output_tokens := some 3, total_tokens := some 10 } }

/-- A reply with an answer and epoch timestamps but no usage. -/
def wDtoDuration : ResponseDTO :=
  { output := some [wAnswerItem], created_at := some 100, completed_at := some 103 }

/-- An assistant message whose only output text is whitespace. -/
def wBlankItem : OutputItem :=
  { type := some "message", role := some "assistant"
    content := some [{ type := some "output_text", text := some "   " }] }

/-- A reply whose only output text is whitespace. -/
def wDtoBlank : ResponseDTO := { output := some [wBlankItem] }

/-- A reply with no output at all (no usable answer text). -/
def wDtoNothing : ResponseDTO := {}

/-- A summarization environment whose calls all succeed with answer "S". -/
def wEnvOK : SummarizeEnv :=
  { resp := fun _ _ => .ok wDtoAnswer, newId := fun k => toString k, now := fun _ => "now" }

/-- A summarization environment whose calls return no usable text. -/
def wEnvBad : SummarizeEnv :=
  { resp := fun _ _ => .ok wDtoNothing, newId := fun k => toString k, now := fun _ => "now" }

/-- The error a no-usable-text summarization call throws. -/
def wStaleError : String := "Summarize: пустой output_text."

/-- An agent with `n` plain turns, no summaries and the default policy.
The model name is deliberately unpriced. -/
def wAgent (n : ℕ) : AgentState :=
  { baseUrl := "b", apiKey := "k", model := "zzz", temperature := 1
    history := List.replicate n wTurn, summaries := []
    summaryTotals := ⟨0, 0, 0, 0, 0⟩
    contextPolicy := defaultContextPolicy
    systemPreamble := "p" }

/-- The 25-turn agent with one stored summary covering `[0, 9]`. -/
def wAgentSum : AgentState :=
  { wAgent 25 with summaries := [{ id := "s0", fromIndex := 0, toIndex := 9, atIso := "t", text := "sum" }] }

/-- Append `n` more plain turns. -/
def addTurns (st : AgentState) (n : ℕ) : AgentState :=
  { st with history := st.history ++ List.replicate n wTurn }

/-- A send environment over the plain-answer reply. -/
def wSendOK : SendEnv :=
  { sumEnv := wEnvOK, mainResp := .ok wDtoAnswer, sumEnvAfter := wEnvOK
    nowUser := "u", nowAssistant := "a" }

/-- A send environment over the usage-carrying reply. -/
def wSendUsage : SendEnv := { wSendOK with mainResp := .ok wDtoUsage }

/-- A send environment over the timestamps-only reply. -/
def wSendDuration : SendEnv := { wSendOK with mainResp := .ok wDtoDuration }

/-- The literal exchange pair `send wSendUsage (wAgent 0) "Hi"` appends. -/
def wUsageUser : Turn :=
  { role := .user, text := "Hi", atIso := "u", model := some "zzz"
    requestInputTokens := some 7, requestOutputTokens := some 3
    requestTotalTokens := some 10 }

def wUsageAssistant : Turn :=
  { role := .assistant, text := "S", atIso := "a", model := some "zzz"
    requestInputTokens := some 7, requestOutputTokens := some 3
    requestTotalTokens := some 10 }

def wUsageFinal : AgentState := { wAgent 0 with history := [wUsageUser, wUsageAssistant] }

def wUsageRes : SendResult :=
  { answer := "S", model := "zzz", usage := some ⟨7, 3, 10⟩
    durationSeconds := none, costRub := none }

/-- The history of the spec's totals example, literally as written: the
usage sits on the assistant turn only. -/
def c6History : List Turn :=
  [{ role := .user, text := "Hi", atIso := "t1" },
   { role := .assistant, text := "Hello", atIso := "t2", model := some "gpt-3.5-turbo"
     requestInputTokens := some 10, requestOutputTokens := some 5
     requestTotalTokens := some 15
     costRub := some ((10 : ℚ) / 1000000 * 129 + (5 : ℚ) / 1000000 * 387) }]

/-- The same exchange after the backfill convention: the user turn (the
request anchor) carries the same usage and cost. -/
def c6HistoryBackfilled : List Turn :=
  [{ role := .user, text := "Hi", atIso := "t1", model := some "gpt-3.5-turbo"
     requestInputTokens := some 10, requestOutputTokens := some 5
     requestTotalTokens := some 15
     costRub := some ((10 : ℚ) / 1000000 * 129 + (5 : ℚ) / 1000000 * 387) },
   { role := .assistant, text := "Hello", atIso := "t2", model := some "gpt-3.5-turbo"
     requestInputTokens := some 10, requestOutputTokens := some 5
     requestTotalTokens := some 15
     costRub := some ((10 : ℚ) / 1000000 * 129 + (5 : ℚ) / 1000000 * 387) }]

/-- `n` copies of the letter a, for length counterexamples. -/
def aStr (n : ℕ) : String := String.mk (List.replicate n 'a')

/-! ## Lemmas: coverage arithmetic -/

theorem maxToIndex_append (l : List Summary) (s : Summary) :
    maxToIndex (l ++ [s]) = max (maxToIndex l) s.toIndex := by
  simp [maxToIndex, List.foldl_append]

theorem le_foldl_max (l : List Summary) (a : ℤ) :
    a ≤ l.foldl (fun acc s => max acc s.toIndex) a := by
  induction l generalizing a with
  | nil => simp
  | cons s rest ih =>
    calc a ≤ max a s.toIndex := le_max_left _ _
    _ ≤ rest.foldl (fun acc s => max acc s.toIndex) (max a s.toIndex) := ih _

theorem maxToIndex_ge (l : List Summary) : -1 ≤ maxToIndex l :=
  le_foldl_max l (-1)

theorem summarizedUntilExclusive_nonneg (st : AgentState) :
    0 ≤ summarizedUntilExclusive st := by
  have := maxToIndex_ge st.summaries
  unfold summarizedUntilExclusive
  omega

theorem effectiveChunkSize_ge (p : ContextPolicy) : 2 ≤ effectiveChunkSize p :=
  le_max_left _ _

theorem effectiveTailSize_nonneg (p : ContextPolicy) : 0 ≤ effectiveTailSize p :=
  le_max_left _ _

/-- Everything `_needsSummarize` guarantees about a returned range. -/
theorem needsSummarize_some {st : AgentState} {r : SumRange}
    (h : needsSummarize st = some r) :
    r.fromIndex = summarizedUntilExclusive st ∧
    r.toIndex = summarizedUntilExclusive st + effectiveChunkSize st.contextPolicy - 1 ∧
    effectiveTailSize st.contextPolicy < (st.history.length : ℤ) ∧
    summarizedUntilExclusive st + effectiveChunkSize st.contextPolicy ≤
      (st.history.length : ℤ) - effectiveTailSize st.contextPolicy := by
  simp only [needsSummarize] at h
  split_ifs at h with h1 h2
  · have h3 : ¬ ((st.history.length : ℤ) ≤ effectiveTailSize st.contextPolicy) := h1
    have h4 := h2
    rw [max_eq_right (by omega)] at h4
    cases h
    refine ⟨rfl, rfl, by omega, by omega⟩

/-- `_needsSummarize` returns `none` exactly when the eligibility formula
fails, for states whose covered prefix is sound (`summarizedUntil ≥ 0`
holds unconditionally, which silences the early return). -/
theorem needsSummarize_none_iff {st : AgentState} :
    needsSummarize st = none ↔
    ¬ (summarizedUntilExclusive st + effectiveChunkSize st.contextPolicy ≤
        max 0 ((st.history.length : ℤ) - effectiveTailSize st.contextPolicy)) := by
  have hu := summarizedUntilExclusive_nonneg st
  have hc := effectiveChunkSize_ge st.contextPolicy
  simp only [needsSummarize]
  split_ifs with h1 h2
  · simp only [true_iff]
    have hm : (0 : ℤ) ⊔ ((st.history.length : ℤ) - effectiveTailSize st.contextPolicy) = 0 :=
      max_eq_left (by omega)
    rw [hm]
    omega
  · simp only [false_iff, not_not]
    exact h2
  · simp only [true_iff]
    exact h2

/-- After appending the summary for the returned range, the exclusive
covered index advances by exactly the effective chunk size. -/
theorem summarizedUntil_applyChunk {st : AgentState} {r : SumRange}
    (h : needsSummarize st = some r) (text : String) (totals : SummaryTotals)
    (id atIso : String) :
    summarizedUntilExclusive (applyChunk st r text totals id atIso) =
      summarizedUntilExclusive st + effectiveChunkSize st.contextPolicy := by
  obtain ⟨hf, ht, _, _⟩ := needsSummarize_some h
  have hc := effectiveChunkSize_ge st.contextPolicy
  unfold summarizedUntilExclusive applyChunk at *
  simp only [maxToIndex_append, ht]
  omega

theorem applyChunk_history (st : AgentState) (r : SumRange) (text : String)
    (totals : SummaryTotals) (id atIso : String) :
    (applyChunk st r text totals id atIso).history = st.history := rfl

/-! ## Lemmas: the coverage chain -/

theorem chainNext_append (n : ℤ) (l₁ l₂ : List Summary) :
    chainNext n (l₁ ++ l₂) = chainNext (chainNext n l₁) l₂ := by
  simp [chainNext, List.foldl_append]

theorem chainFrom_append {n : ℤ} {l₁ l₂ : List Summary}
    (h₁ : chainFrom n l₁ = true) (h₂ : chainFrom (chainNext n l₁) l₂ = true) :
    chainFrom n (l₁ ++ l₂) = true := by
  induction l₁ generalizing n with
  | nil =>
    simpa [chainNext] using h₂
  | cons s rest ih =>
    simp only [chainFrom, Bool.and_eq_true, decide_eq_true_eq] at h₁ ⊢
    refine ⟨⟨h₁.1.1, h₁.1.2⟩, ?_⟩
    exact ih h₁.2 (by simpa [chainNext] using h₂)

theorem chainFrom_max {l : List Summary} :
    ∀ {n : ℤ}, chainFrom n l = true →
      l.foldl (fun acc s => max acc s.toIndex) (n - 1) = chainNext n l - 1 := by
  induction l with
  | nil => intro n _; simp [chainNext]
  | cons s rest ih =>
    intro n h
    simp only [chainFrom, Bool.and_eq_true, decide_eq_true_eq] at h
    obtain ⟨⟨hf, hle⟩, hrest⟩ := h
    have hmax : max (n - 1) s.toIndex = s.toIndex := max_eq_right (by omega)
    simp only [List.foldl_cons, hmax, chainNext, List.foldl_cons]
    have := ih (n := s.toIndex + 1) hrest
    simpa [chainNext] using this

/-- For a contiguous-from-zero summaries list, the code's `maxTo + 1`
computation lands exactly one past the chain's end. -/
theorem contiguous_maxToIndex {l : List Summary}
    (h : contiguousFromZero l = true) : maxToIndex l + 1 = chainNext 0 l := by
  have hm := chainFrom_max (l := l) (n := 0) h
  have h0 : (0 : ℤ) - 1 = -1 := by norm_num
  rw [h0] at hm
  simp only [maxToIndex]
  omega

/-- Appending the next produced summary keeps the coverage contiguous. -/
theorem contiguous_append {l : List Summary} {s : Summary}
    (h : contiguousFromZero l = true)
    (hf : s.fromIndex = maxToIndex l + 1) (hle : s.fromIndex ≤ s.toIndex) :
    contiguousFromZero (l ++ [s]) = true := by
  refine chainFrom_append h ?_
  have hc := contiguous_maxToIndex h
  simp only [chainFrom, Bool.and_eq_true, decide_eq_true_eq, and_true]
  exact ⟨by omega, hle⟩

theorem chain_bounds {l : List Summary} :
    ∀ {n : ℤ}, chainFrom n l = true →
      ∀ s ∈ l, n ≤ s.fromIndex ∧ s.fromIndex ≤ s.toIndex := by
  induction l with
  | nil => intro n _ s hs; cases hs
  | cons t rest ih =>
    intro n h s hs
    simp only [chainFrom, Bool.and_eq_true, decide_eq_true_eq] at h
    obtain ⟨⟨hf, hle⟩, hrest⟩ := h
    rcases List.mem_cons.mp hs with rfl | hs
    · exact ⟨by omega, by omega⟩
    · have := ih hrest s hs
      exact ⟨by omega, this.2⟩

/-- A contiguous chain has pairwise non-overlapping ranges. -/
theorem chain_nonoverlap {l : List Summary} :
    ∀ {n : ℤ}, chainFrom n l = true → rangesNonOverlap l = true := by
  induction l with
  | nil => intro n _; rfl
  | cons s rest ih =>
    intro n h
    simp only [chainFrom, Bool.and_eq_true, decide_eq_true_eq] at h
    obtain ⟨⟨hf, hle⟩, hrest⟩ := h
    simp only [rangesNonOverlap, Bool.and_eq_true, List.all_eq_true]
    refine ⟨fun s' hs' => ?_, ih hrest⟩
    have := (chain_bounds hrest s' hs').1
    simp only [Bool.or_eq_true, decide_eq_true_eq]
    left
    omega

theorem contiguous_nonoverlap {l : List Summary}
    (h : contiguousFromZero l = true) : rangesNonOverlap l = true :=
  chain_nonoverlap h

/-- On a well-formed (0-based contiguous) summaries list the spec's
`coveredUntil` formula agrees with `_getSummarizedUntilIndexExclusive`. -/
theorem specCoveredUntil_eq_of_wf {l : List Summary}
    (h : wfSummaries l = true) : specCoveredUntil l = maxToIndex l + 1 := by
  cases l with
  | nil => rfl
  | cons s rest =>
    simp only [wfSummaries, List.all_eq_true, decide_eq_true_eq] at h
    have hs : 0 ≤ s.toIndex := h s (by simp)
    simp only [specCoveredUntil, maxToIndex, List.foldl_cons]
    have hmax : max (-1 : ℤ) s.toIndex = s.toIndex := max_eq_right (by omega)
    rw [hmax]

/-! ## Lemmas: the ensure-coverage loop -/

theorem ensureFuel_eq (st : AgentState) : ensureFuel st = coverageDebt st + 1 := rfl

/-- The coverage loop never touches anything but summaries and totals. -/
theorem ensureAux_frame (env : SummarizeEnv) (fuel : ℕ) :
    ∀ (k : ℕ) (st : AgentState),
      (ensureAux env fuel k st).1.history = st.history ∧
      (ensureAux env fuel k st).1.contextPolicy = st.contextPolicy ∧
      (ensureAux env fuel k st).1.apiKey = st.apiKey ∧
      (ensureAux env fuel k st).1.baseUrl = st.baseUrl ∧
      (ensureAux env fuel k st).1.model = st.model ∧
      (ensureAux env fuel k st).1.temperature = st.temperature ∧
      (ensureAux env fuel k st).1.systemPreamble = st.systemPreamble := by
  induction fuel with
  | zero => exact fun k st => ⟨rfl, rfl, rfl, rfl, rfl, rfl, rfl⟩
  | succ fuel ih =>
    intro k st
    simp only [ensureAux]
    split
    · exact ⟨rfl, rfl, rfl, rfl, rfl, rfl, rfl⟩
    · split
      · exact ⟨rfl, rfl, rfl, rfl, rfl, rfl, rfl⟩
      · next text totals _ =>
        simpa [applyChunk] using ih (k + 1) _

/-- The covered prefix only grows. -/
theorem ensureAux_until_mono (env : SummarizeEnv) (fuel : ℕ) :
    ∀ (k : ℕ) (st : AgentState),
      summarizedUntilExclusive st ≤
        summarizedUntilExclusive (ensureAux env fuel k st).1 := by
  induction fuel with
  | zero => exact fun k st => le_refl _
  | succ fuel ih =>
    intro k st
    simp only [ensureAux]
    split
    · exact le_refl _
    · next r hr =>
      split
      · exact le_refl _
      · next text totals _ =>
        have hstep := summarizedUntil_applyChunk hr text totals (env.newId k) (env.now k)
        have hc := effectiveChunkSize_ge st.contextPolicy
        calc summarizedUntilExclusive st
            ≤ summarizedUntilExclusive (applyChunk st r text totals (env.newId k) (env.now k)) := by
              omega
        _ ≤ _ := ih (k + 1) _

/-- The coverage loop only appends summaries. -/
theorem ensureAux_summaries_extend (env : SummarizeEnv) (fuel : ℕ) :
    ∀ (k : ℕ) (st : AgentState),
      ∃ tail, (ensureAux env fuel k st).1.summaries = st.summaries ++ tail := by
  induction fuel with
  | zero => exact fun k st => ⟨[], by simp [ensureAux]⟩
  | succ fuel ih =>
    intro k st
    simp only [ensureAux]
    split
    · exact ⟨[], by simp⟩
    · next r hr =>
      split
      · exact ⟨[], by simp⟩
      · next text totals _ =>
        obtain ⟨tail, htail⟩ := ih (k + 1)
          (applyChunk st r text totals (env.newId k) (env.now k))
        exact ⟨_ :: tail, by simpa [applyChunk] using htail⟩

/-- The coverage loop preserves the contiguity invariant. -/
theorem ensureAux_contig (env : SummarizeEnv) (fuel : ℕ) :
    ∀ (k : ℕ) (st : AgentState), contiguousFromZero st.summaries = true →
      contiguousFromZero (ensureAux env fuel k st).1.summaries = true := by
  induction fuel with
  | zero => exact fun k st h => h
  | succ fuel ih =>
    intro k st h
    simp only [ensureAux]
    split
    · exact h
    · next r hr =>
      split
      · exact h
      · next text totals _ =>
        refine ih (k + 1) _ ?_
        obtain ⟨hf, ht, _, _⟩ := needsSummarize_some hr
        have hc := effectiveChunkSize_ge st.contextPolicy
        have hu : summarizedUntilExclusive st = maxToIndex st.summaries + 1 := rfl
        exact contiguous_append h
          (show r.fromIndex = maxToIndex st.summaries + 1 by omega)
          (show r.fromIndex ≤ r.toIndex by omega)

/-- With fuel exceeding the coverage debt, a pass that returns no error
has exhausted all eligible ranges. -/
theorem ensureAux_done (env : SummarizeEnv) (fuel : ℕ) :
    ∀ (k : ℕ) (st : AgentState), coverageDebt st < fuel →
      (ensureAux env fuel k st).2 = none →
      needsSummarize (ensureAux env fuel k st).1 = none := by
  induction fuel with
  | zero => intro k st h; omega
  | succ fuel ih =>
    intro k st hfuel hok
    simp only [ensureAux] at hok ⊢
    split at hok
    · next hr =>
      simp [hr]
    · next r hr =>
      split at hok
      · simp at hok
      · next text totals _ =>
        refine ih (k + 1) _ ?_ hok
        obtain ⟨hf, ht, hkl, hle⟩ := needsSummarize_some hr
        have hc := effectiveChunkSize_ge st.contextPolicy
        have hk := effectiveTailSize_nonneg st.contextPolicy
        have hstep := summarizedUntil_applyChunk hr text totals (env.newId k) (env.now k)
        have hhist : (applyChunk st r text totals (env.newId k) (env.now k)).history
            = st.history := rfl
        simp only [coverageDebt, hstep, hhist] at *
        omega

/-! ## Lemmas: the public ensure pass and send -/

/-- A completed (error-free) pass leaves no eligible range behind. -/
theorem ensure_done {env : SummarizeEnv} {st st1 : AgentState}
    (h : ensureSummariesUpToDate env st = (st1, none)) :
    needsSummarize st1 = none := by
  have := ensureAux_done env (ensureFuel st) 0 st (by rw [ensureFuel_eq]; omega)
  rw [ensureSummariesUpToDate] at h
  rw [h] at this
  exact this rfl

/-- Idempotence: a second pass right after a completed one is a no-op,
for any environment. -/
theorem ensure_idempotent {env : SummarizeEnv} {st st1 : AgentState}
    (h : ensureSummariesUpToDate env st = (st1, none)) (env₂ : SummarizeEnv) :
    ensureSummariesUpToDate env₂ st1 = (st1, none) := by
  have hdone := ensure_done h
  rw [ensureSummariesUpToDate, ensureFuel_eq]
  simp [ensureAux, hdone]

/-- If the very first chunk's auxiliary call fails, the pass returns the
state unchanged together with the error. -/
theorem ensure_fail_first {env : SummarizeEnv} {st : AgentState} {r : SumRange}
    {e : String} (hr : needsSummarize st = some r)
    (hfail : summarizeChunkWithLLM st (jsSlice st.history r.fromIndex (r.toIndex + 1))
      r (env.resp 0) = .error e) :
    ensureSummariesUpToDate env st = (st, some e) := by
  rw [ensureSummariesUpToDate, ensureFuel_eq]
  simp [ensureAux, hr, hfail]

/-- If the first chunk's call succeeds, the first summary the pass stores
is exactly the eligible range computed from the starting state. -/
theorem ensure_first_range {env : SummarizeEnv} {st : AgentState} {r : SumRange}
    {text : String} {totals : SummaryTotals}
    (hr : needsSummarize st = some r)
    (hok : summarizeChunkWithLLM st (jsSlice st.history r.fromIndex (r.toIndex + 1))
      r (env.resp 0) = .ok (text, totals)) :
    ((summariesRanges (ensureSummariesUpToDate env st).1.summaries).drop
      st.summaries.length).head? = some (r.fromIndex, r.toIndex) := by
  rw [ensureSummariesUpToDate, ensureFuel_eq]
  have hunfold :
      ensureAux env (coverageDebt st + 1) 0 st =
        ensureAux env (coverageDebt st) 1
          (applyChunk st r text totals (env.newId 0) (env.now 0)) := by
    simp [ensureAux, hr, hok]
  rw [hunfold]
  obtain ⟨tail, htail⟩ := ensureAux_summaries_extend env (coverageDebt st) 1
    (applyChunk st r text totals (env.newId 0) (env.now 0))
  rw [summariesRanges, htail]
  simp [applyChunk, List.drop_append_of_le_length]

/-- The public pass never touches history (nor config/policy/preamble). -/
theorem ensure_frame (env : SummarizeEnv) (st : AgentState) :
    (ensureSummariesUpToDate env st).1.history = st.history ∧
    (ensureSummariesUpToDate env st).1.contextPolicy = st.contextPolicy ∧
    (ensureSummariesUpToDate env st).1.apiKey = st.apiKey :=
  ⟨(ensureAux_frame env (ensureFuel st) 0 st).1,
   (ensureAux_frame env (ensureFuel st) 0 st).2.1,
   (ensureAux_frame env (ensureFuel st) 0 st).2.2.1⟩

/-- When the pre-context coverage pass fails, `send` surfaces exactly that
error and returns the pass's state: no turn has been appended. -/
theorem send_fail_ensure {env : SendEnv} {st st1 : AgentState} {userText e : String}
    (hkey : ¬ st.apiKey = "") (htext : ¬ jsTrim userText = "")
    (h : ensureSummariesUpToDate env.sumEnv st = (st1, some e)) :
    send env st userText = (st1, .error e) := by
  rw [send, if_neg hkey, if_neg htext, h]

/-- Everything a completed-or-failed coverage pass guarantees about its
returned state, keyed on the result equation. -/
theorem ensure_eq_props {e : SummarizeEnv} {s s' : AgentState} {err : Option String}
    (h : ensureSummariesUpToDate e s = (s', err)) :
    (contiguousFromZero s.summaries = true →
      contiguousFromZero s'.summaries = true) ∧
    summarizedUntilExclusive s ≤ summarizedUntilExclusive s' ∧
    s'.history = s.history ∧ s'.contextPolicy = s.contextPolicy ∧
    s'.apiKey = s.apiKey := by
  have h1 := ensureAux_contig e (ensureFuel s) 0 s
  have h2 := ensureAux_until_mono e (ensureFuel s) 0 s
  have h3 := ensureAux_frame e (ensureFuel s) 0 s
  rw [ensureSummariesUpToDate] at h
  rw [h] at h1 h2 h3
  exact ⟨h1, h2, h3.1, h3.2.1, h3.2.2.1⟩

/-- Every state `send` can return keeps the coverage invariant and never
shrinks the covered prefix (both ensure passes may extend it). -/
theorem send_state_props (env : SendEnv) (st : AgentState) (userText : String) :
    (contiguousFromZero st.summaries = true →
      contiguousFromZero (send env st userText).1.summaries = true) ∧
    summarizedUntilExclusive st ≤ summarizedUntilExclusive (send env st userText).1 := by
  simp only [send]
  split_ifs
  · exact ⟨fun h => h, le_refl _⟩
  · exact ⟨fun h => h, le_refl _⟩
  · split
    · next st1 e heq =>
      obtain ⟨hc, hm, -, -, -⟩ := ensure_eq_props heq
      exact ⟨hc, hm⟩
    · next st1 heq =>
      obtain ⟨hc1, hm1, -, -, -⟩ := ensure_eq_props heq
      split
      · exact ⟨hc1, hm1⟩
      · next dto hdto =>
        split
        · exact ⟨hc1, hm1⟩
        · next answerText hext =>
          split
          · next st4 e heq2 =>
            obtain ⟨hc2, hm2, -, -, -⟩ := ensure_eq_props heq2
            exact ⟨fun h => hc2 (hc1 h), le_trans hm1 hm2⟩
          · next st4 heq2 =>
            obtain ⟨hc2, hm2, -, -, -⟩ := ensure_eq_props heq2
            exact ⟨fun h => hc2 (hc1 h), le_trans hm1 hm2⟩

/-- Shape of a successful `send`: both coverage passes completed, the
reply carried a usable answer, and the final history is the pre-send
history plus exactly the exchange pair. -/
theorem send_ok_shape {env : SendEnv} {st st' : AgentState} {userText : String}
    {res : SendResult} (h : send env st userText = (st', .ok res)) :
    ∃ st1 dto answerText,
      ensureSummariesUpToDate env.sumEnv st = (st1, none) ∧
      st1.history = st.history ∧
      env.mainResp = .ok dto ∧
      extractAnswerText dto = some answerText ∧
      res = sendOutcome st dto answerText ∧
      st'.history = st.history ++
        [(exchangeTurns st userText env.nowUser env.nowAssistant dto answerText).1,
         (exchangeTurns st userText env.nowUser env.nowAssistant dto answerText).2] := by
  simp only [send] at h
  split_ifs at h
  · simp at h
  · simp at h
  · split at h
    · simp at h
    · next st1 heq =>
      have hh1 : st1.history = st.history := by
        have := (ensure_frame env.sumEnv st).1
        rwa [heq] at this
      split at h
      · simp at h
      · next dto hdto =>
        split at h
        · simp at h
        · next answerText hext =>
          split at h
          · simp at h
          · next st4 heq2 =>
            simp only [Prod.mk.injEq, Except.ok.injEq] at h
            obtain ⟨rfl, hres⟩ := h
            obtain ⟨-, -, hh4, -, -⟩ := ensure_eq_props heq2
            exact ⟨st1, dto, answerText, heq, hh1, hdto, hext, hres.symm,
              by rw [hh4]; simp [hh1]⟩

/-! ## Lemmas: export / import round trip -/

theorem importSummaries_export (now freshId : String) (l : List Summary) :
    importSummaries now freshId (l.map exportSummary) = l := by
  induction l with
  | nil => rfl
  | cons s rest ih =>
    simp only [List.map_cons, importSummaries, List.filter_cons] at *
    simp only [exportSummary, Option.isSome_some, if_pos, List.map_cons]
    simpa [importSummaries, exportSummary] using ih

theorem importHistory_export (now : String) (l : List Turn) :
    importHistory now (l.map exportTurn) = l := by
  induction l with
  | nil => rfl
  | cons m rest ih =>
    simp only [List.map_cons, importHistory, List.filter_cons] at *
    simp only [exportTurn, Option.isSome_some, if_pos, List.map_cons]
    simpa [importHistory, exportTurn] using ih

/-- `importState(exportState())` restores the exact state: every observable
component round-trips and the credential, never serialized, is simply the
importing agent's own (unchanged) one. -/
theorem import_export_roundTrip (st : AgentState) (savedAt now freshId : String) :
    importState st (exportState st savedAt) now freshId = st := by
  simp only [importState, exportState, importSummaries_export, importHistory_export,
    Option.getD_some]

/-! ## Lemmas: summary compaction -/

theorem mk_length {l : List Char} : (String.mk l).length = l.length := rfl

theorem compactText_length_le (text : String) (mc : Option ℤ) :
    ((compactText text mc).length : ℤ) ≤ max 200 (jsOr mc 1400) := by
  have hm : (200 : ℤ) ≤ max 200 (jsOr mc 1400) := le_max_left _ _
  have key : ∀ L : List Char,
      ((String.mk (L.take (max 200 (jsOr mc 1400)).toNat)).length : ℤ) ≤
        max 200 (jsOr mc 1400) := by
    intro L
    rw [mk_length, List.length_take]
    omega
  simp only [compactText]
  split_ifs with hfit
  · simpa [mk_length] using hfit
  · exact key _

theorem compactText_of_fits (text : String) (mc : Option ℤ)
    (h : (((trimChars text.toList).length : ℤ) ≤ max 200 (jsOr mc 1400))) :
    compactText text mc = jsTrim text := by
  simp only [compactText, jsTrim]
  rw [if_pos h]

/-! ## Lemmas: extractor refinement -/

theorem specFirstAssistant_eq (l : List OutputItem) :
    specFirstAssistant l =
      l.find? (fun it => it.type == some "message" && it.role == some "assistant") := by
  induction l with
  | nil => rfl
  | cons c rest ih =>
    by_cases h1 : c.type = some "message" <;> by_cases h2 : c.role = some "assistant" <;>
      simp [specFirstAssistant, List.find?_cons, h1, h2, ih]

theorem specFirstWebText_eq (l : List ContentItem) :
    specFirstWebText l =
      (l.find? (fun c => c.type == some "output_text" && c.text.isSome)).bind
        ContentItem.text := by
  induction l with
  | nil => rfl
  | cons c rest ih =>
    rcases hct : c.text with _ | s <;>
      by_cases h1 : c.type = some "output_text" <;>
        simp [specFirstWebText, List.find?_cons, hct, h1, ih]

theorem specFirstIOSItem_eq (l : List ContentItem) :
    specFirstIOSItem l = l.find? (fun c => c.type == some "output_text") := by
  induction l with
  | nil => rfl
  | cons c rest ih =>
    by_cases h1 : c.type = some "output_text" <;>
      simp [specFirstIOSItem, List.find?_cons, h1, ih]

theorem jsTrim_empty : jsTrim "" = "" := rfl

theorem extract_eq_specWeb (dto : ResponseDTO) :
    extractAnswerText dto = specWebExtract dto := by
  simp only [extractAnswerText, specWebExtract, specFirstAssistant_eq, specFirstWebText_eq]
  cases hfa : (dto.output.getD []).find?
      (fun it => it.type == some "message" && it.role == some "assistant") with
  | none => simp [jsTrim_empty]
  | some it =>
    cases hft : (it.content.getD []).find?
        (fun c => c.type == some "output_text" && c.text.isSome) with
    | none => simp [hft, jsTrim_empty]
    | some c =>
      have hp := List.find?_some hft
      simp only [Bool.and_eq_true, Option.isSome_iff_exists] at hp
      obtain ⟨-, s, hs⟩ := hp
      simp [hft, hs]

theorem extractIOS_eq_specIOS (dto : ResponseDTO) :
    extractAnswerTextIOS dto = specIOSExtract dto := by
  simp only [extractAnswerTextIOS, specIOSExtract, specFirstAssistant_eq, specFirstIOSItem_eq]
  cases dto.output with
  | none => rfl
  | some out =>
    cases hfa : out.find?
        (fun it => it.type == some "message" && it.role == some "assistant") with
    | none => simp [hfa]
    | some it =>
      cases hfi : (it.content.getD []).find? (fun c => c.type == some "output_text") with
      | none => simp [hfa, hfi]
      | some c =>
        cases hct : c.text with
        | none => simp [hfa, hfi, hct]
        | some s => simp [hfa, hfi, hct]

theorem extract_ne_some_empty (dto : ResponseDTO) :
    extractAnswerText dto ≠ some "" := by
  simp only [extractAnswerText]
  split_ifs with h
  · simp
  · simp [h]

/-! ## Lemmas: the exchange pair and indexing -/

theorem getD_append_two_left {α : Type} (l : List α) (x y d : α) :
    (l ++ [x, y]).getD l.length d = x := by
  induction l with
  | nil => rfl
  | cons a t ih => simpa using ih

theorem getD_append_two_right {α : Type} (l : List α) (x y d : α) :
    (l ++ [x, y]).getD (l.length + 1) d = y := by
  induction l with
  | nil => rfl
  | cons a t ih => simpa using ih

/-- The stat fields of the two turns of one exchange, by cases on whether
the reply carried usage. -/
theorem exchangeTurns_fields (st : AgentState) (userText nu na : String)
    (dto : ResponseDTO) (answerText : String) :
    (exchangeTurns st userText nu na dto answerText).1.role = .user ∧
    (exchangeTurns st userText nu na dto answerText).2.role = .assistant ∧
    (exchangeTurns st userText nu na dto answerText).1.requestInputTokens =
      (exchangeTurns st userText nu na dto answerText).2.requestInputTokens ∧
    (exchangeTurns st userText nu na dto answerText).1.requestOutputTokens =
      (exchangeTurns st userText nu na dto answerText).2.requestOutputTokens ∧
    (exchangeTurns st userText nu na dto answerText).1.requestTotalTokens =
      (exchangeTurns st userText nu na dto answerText).2.requestTotalTokens ∧
    (exchangeTurns st userText nu na dto answerText).1.costRub =
      (exchangeTurns st userText nu na dto answerText).2.costRub ∧
    (exchangeTurns st userText nu na dto answerText).1.requestInputTokens =
      (normalizeUsage dto).map UsageTriple.inputTokens ∧
    ((normalizeUsage dto).isSome →
      (exchangeTurns st userText nu na dto answerText).1.durationSeconds =
        (exchangeTurns st userText nu na dto answerText).2.durationSeconds ∧
      (exchangeTurns st userText nu na dto answerText).1.model =
        (exchangeTurns st userText nu na dto answerText).2.model) ∧
    (normalizeUsage dto = none →
      (exchangeTurns st userText nu na dto answerText).1.model = none ∧
      (exchangeTurns st userText nu na dto answerText).1.costRub = none ∧
      (exchangeTurns st userText nu na dto answerText).1.durationSeconds = none) := by
  cases hu : normalizeUsage dto <;> simp [exchangeTurns, hu]

/-! ## Lemmas: totals aggregation -/

theorem totalsFold_filter (h : List Turn) :
    ∀ acc : HistoryTotals,
      h.foldl historyTotalsStep acc =
        (h.filter (fun m => m.role == Role.user)).foldl historyTotalsStep acc := by
  induction h with
  | nil => intro acc; rfl
  | cons m rest ih =>
    intro acc
    by_cases hm : m.role = Role.user
    · simp [List.filter_cons, hm, List.foldl_cons, ih]
    · simp [List.filter_cons, hm, List.foldl_cons, ih, historyTotalsStep]

/-- Aggregation reads only `user`-role turns: dropping every other turn
changes nothing. -/
theorem computeHistoryTotals_filter (h : List Turn) :
    computeHistoryTotals h =
      computeHistoryTotals (h.filter (fun m => m.role == Role.user)) :=
  totalsFold_filter h _

/-! ## The claims -/

/-- C1: for every conversation state (with the data model's non-negative
summary indices) and context policy, the eligibility check finds a new
range exactly when `coveredUntil + chunkSize ≤ max(0, totalTurns - tailSize)`
(with the effective, clamped chunk/tail sizes); the range is then exactly
`[coveredUntil, coveredUntil + chunkSize - 1]`, and no turn at or past the
uncovered boundary is ever part of it. -/
theorem claim1_eligibility (st : AgentState)
    (h : wfSummaries st.summaries = true) :
    specCoveredUntil st.summaries = summarizedUntilExclusive st ∧
    needsSummarize st =
      (if specCoveredUntil st.summaries + effectiveChunkSize st.contextPolicy ≤
          max 0 ((st.history.length : ℤ) - effectiveTailSize st.contextPolicy) then
        some { fromIndex := specCoveredUntil st.summaries
               toIndex := specCoveredUntil st.summaries +
                 effectiveChunkSize st.contextPolicy - 1 }
       else none) ∧
    (∀ r, needsSummarize st = some r →
      r.toIndex <
        max 0 ((st.history.length : ℤ) - effectiveTailSize st.contextPolicy)) := by
  have hcov : specCoveredUntil st.summaries = summarizedUntilExclusive st := by
    rw [specCoveredUntil_eq_of_wf h]; rfl
  refine ⟨hcov, ?_, ?_⟩
  · rw [hcov]
    cases hn : needsSummarize st with
    | some r =>
      obtain ⟨hf, ht, hkl, hle⟩ := needsSummarize_some hn
      have hmax : max 0 ((st.history.length : ℤ) - effectiveTailSize st.contextPolicy) =
          (st.history.length : ℤ) - effectiveTailSize st.contextPolicy :=
        max_eq_right (by omega)
      rw [hmax, if_pos hle]
      obtain ⟨rf, rt⟩ := r
      simp only [Option.some.injEq, SumRange.mk.injEq]
      exact ⟨hf, ht⟩
    | none =>
      have := needsSummarize_none_iff.mp hn
      rw [if_neg this]
  · intro r hr
    obtain ⟨hf, ht, hkl, hle⟩ := needsSummarize_some hr
    have : (st.history.length : ℤ) - effectiveTailSize st.contextPolicy ≤
        max 0 ((st.history.length : ℤ) - effectiveTailSize st.contextPolicy) :=
      le_max_right _ _
    omega

/-- C1 witness: the default policy over 25 fresh turns. -/
theorem claim1_eligibility_witness :
    wfSummaries (wAgent 25).summaries = true ∧
    needsSummarize (wAgent 25) =
      (if specCoveredUntil (wAgent 25).summaries + effectiveChunkSize (wAgent 25).contextPolicy ≤
          max 0 (((wAgent 25).history.length : ℤ) - effectiveTailSize (wAgent 25).contextPolicy) then
        some { fromIndex := specCoveredUntil (wAgent 25).summaries
               toIndex := specCoveredUntil (wAgent 25).summaries +
                 effectiveChunkSize (wAgent 25).contextPolicy - 1 }
       else none) :=
  ⟨by decide, (claim1_eligibility (wAgent 25) (by decide)).2.1⟩

/-- C2: on states whose stored summaries form a contiguous 0-based
partition, the coverage stays a contiguous, pairwise non-overlapping
partition of a prefix under ensure-coverage and send; importing an
exported invariant-satisfying state preserves it; and `coveredUntil` never
decreases under ensure-coverage or send. -/
theorem claim2_coverageInvariant (env : SummarizeEnv) (sendEnv : SendEnv)
    (st st' : AgentState) (userText savedAt now freshId : String)
    (hc : contiguousFromZero st.summaries = true)
    (hc' : contiguousFromZero st'.summaries = true) :
    contiguousFromZero (ensureSummariesUpToDate env st).1.summaries = true ∧
    rangesNonOverlap (ensureSummariesUpToDate env st).1.summaries = true ∧
    contiguousFromZero (send sendEnv st userText).1.summaries = true ∧
    rangesNonOverlap (send sendEnv st userText).1.summaries = true ∧
    contiguousFromZero
      (importState st (exportState st' savedAt) now freshId).summaries = true ∧
    summarizedUntilExclusive st ≤
      summarizedUntilExclusive (ensureSummariesUpToDate env st).1 ∧
    summarizedUntilExclusive st ≤
      summarizedUntilExclusive (send sendEnv st userText).1 := by
  have h1 : contiguousFromZero (ensureSummariesUpToDate env st).1.summaries = true :=
    ensureAux_contig env (ensureFuel st) 0 st hc
  have h3 : contiguousFromZero (send sendEnv st userText).1.summaries = true :=
    (send_state_props sendEnv st userText).1 hc
  refine ⟨h1, contiguous_nonoverlap h1, h3, contiguous_nonoverlap h3, ?_, ?_, ?_⟩
  · have hsum : (importState st (exportState st' savedAt) now freshId).summaries =
        st'.summaries := by
      simp [importState, exportState, importSummaries_export]
    rw [hsum]
    exact hc'
  · exact ensureAux_until_mono env (ensureFuel st) 0 st
  · exact (send_state_props sendEnv st userText).2

/-- C2 witness: the 25-turn agent with one summary stored, run through a
coverage pass, a send, and an export/import cycle. -/
theorem claim2_coverageInvariant_witness :
    contiguousFromZero wAgentSum.summaries = true ∧
    contiguousFromZero (ensureSummariesUpToDate wEnvOK wAgentSum).1.summaries = true ∧
    rangesNonOverlap (ensureSummariesUpToDate wEnvOK wAgentSum).1.summaries = true ∧
    contiguousFromZero (send wSendOK wAgentSum "Hi").1.summaries = true ∧
    contiguousFromZero
      (importState wAgentSum (exportState wAgentSum "sv") "now" "id").summaries = true ∧
    summarizedUntilExclusive wAgentSum ≤
      summarizedUntilExclusive (ensureSummariesUpToDate wEnvOK wAgentSum).1 := by
  have h := claim2_coverageInvariant wEnvOK wSendOK wAgentSum wAgentSum "Hi" "sv"
    "now" "id" (by decide) (by decide)
  exact ⟨by decide, h.1, h.2.1, h.2.2.1, h.2.2.2.2.1, h.2.2.2.2.2.1⟩

/-- C3: a completed ensure-coverage pass is idempotent — an immediate
second pass (any environment) adds nothing; and on the concrete scenario
(tail 12, chunk 10, 25 turns, nothing covered) the first pass stores
exactly one summary over `[0, 9]`, an immediate second pass stores none,
and after 10 more turns the next pass stores exactly one more over
`[10, 19]`. -/
theorem claim3_idempotence (env env₂ : SummarizeEnv) (st st1 : AgentState)
    (h : ensureSummariesUpToDate env st = (st1, none)) :
    ensureSummariesUpToDate env₂ st1 = (st1, none) ∧
    (summariesRanges (ensureSummariesUpToDate wEnvOK (wAgent 25)).1.summaries = [(0, 9)] ∧
      (ensureSummariesUpToDate wEnvOK (wAgent 25)).2 = none) ∧
    ensureSummariesUpToDate wEnvOK (ensureSummariesUpToDate wEnvOK (wAgent 25)).1 =
      ((ensureSummariesUpToDate wEnvOK (wAgent 25)).1, none) ∧
    (summariesRanges (ensureSummariesUpToDate wEnvOK
        (addTurns (ensureSummariesUpToDate wEnvOK (wAgent 25)).1 10)).1.summaries =
      [(0, 9), (10, 19)] ∧
      (ensureSummariesUpToDate wEnvOK
        (addTurns (ensureSummariesUpToDate wEnvOK (wAgent 25)).1 10)).2 = none) :=
  ⟨ensure_idempotent h env₂, ⟨by decide, by decide⟩, by decide, ⟨by decide, by decide⟩⟩

/-- C3 witness: a pass with nothing eligible completes and stays a no-op. -/
theorem claim3_idempotence_witness :
    ensureSummariesUpToDate wEnvOK (wAgent 0) = (wAgent 0, none) ∧
    ensureSummariesUpToDate wEnvBad (wAgent 0) = (wAgent 0, none) :=
  ⟨by decide,
   (claim3_idempotence wEnvOK wEnvBad (wAgent 0) (wAgent 0) (by decide)).1⟩

/-- C4: `importState(exportState())` restores the exact observable state
(turns, summaries, policy, totals, preamble, config); `exportState`
always emits the credential slot as absent; and `importState` never
touches the credential, whatever the blob. -/
theorem claim4_roundTrip (st : AgentState) (savedAt now freshId : String)
    (blob : ExportedState) :
    importState st (exportState st savedAt) now freshId = st ∧
    (exportState st savedAt).config =
      some { baseUrl := some st.baseUrl, apiKey := none
             model := some st.model, temperature := some st.temperature } ∧
    (importState st blob now freshId).apiKey = st.apiKey := by
  refine ⟨import_export_roundTrip st savedAt now freshId, rfl, ?_⟩
  simp only [importState]
  repeat' split
  all_goals rfl

/-- C5: the failing half of the claim is true of the code — the pass
whose auxiliary call returns no usable text stores nothing for that
chunk, leaves the state exactly as it stood, and `send` surfaces the
error before any turn is appended.  But the claim's retry clause is not:
the source chains every pass with `this._summarizeLock.then(...)` and
never installs a rejection handler or resets the lock, so the failure
leaves the lock rejected, and a retried pass — here with a summarizer
that now succeeds — replays the stale error, never recomputes the still
eligible range `[0, 9]` (which a fresh run of the loop would store
first), and stores nothing. -/
theorem claim5_lockPoisoning :
    ensureSummariesWithLock wEnvBad { state := wAgent 25, lockError := none } =
      ({ state := wAgent 25, lockError := some wStaleError }, some wStaleError) ∧
    send { sumEnv := wEnvBad, mainResp := .ok wDtoAnswer, sumEnvAfter := wEnvOK
           nowUser := "u", nowAssistant := "a" } (wAgent 25) "Hi" =
      (wAgent 25, .error wStaleError) ∧
    needsSummarize (wAgent 25) = some { fromIndex := 0, toIndex := 9 } ∧
    ((summariesRanges (ensureSummariesUpToDate wEnvOK (wAgent 25)).1.summaries).drop
      (wAgent 25).summaries.length).head? = some (0, 9) ∧
    ensureSummariesWithLock wEnvOK { state := wAgent 25, lockError := some wStaleError } =
      ({ state := wAgent 25, lockError := some wStaleError }, some wStaleError) ∧
    (ensureSummariesWithLock wEnvOK
      { state := wAgent 25, lockError := some wStaleError }).1.state.summaries = [] :=
  ⟨by decide,
   send_fail_ensure (by decide) (by decide) (by decide),
   by decide, by decide, by decide, by decide⟩

/-- C6 counterexample: on the claim's literal history — usage attached to
the assistant turn only — `computeHistoryTotals` returns all-zero totals,
not `{in:10, out:5, total:15}`: the aggregator reads only `user`-role
anchors. -/
theorem claim6_counterexample :
    computeHistoryTotals c6History =
      { requestInputTokens := 0, requestOutputTokens := 0
        requestTotalTokens := 0, costRub := 0 } ∧
    (computeHistoryTotals c6History).requestInputTokens ≠ 10 :=
  ⟨by decide, by decide⟩

/-- C6 amended: `computeHistoryTotals` sums strictly over `user`-role
turns that carry usage; on the example exchange *after the backfill
convention attributes the usage (and its cost `10/1e6·129 + 5/1e6·387`,
exactly the pricing table's value) to the user turn*, it returns
`{in:10, out:5, total:15}` with that cost. -/
theorem claim6_totals (h : List Turn) :
    computeHistoryTotals h =
      computeHistoryTotals (h.filter (fun m => m.role == Role.user)) ∧
    OpenAIModelPricing.costRub "gpt-3.5-turbo" 10 5 =
      some ((10 : ℚ) / 1000000 * 129 + (5 : ℚ) / 1000000 * 387) ∧
    computeHistoryTotals c6HistoryBackfilled =
      { requestInputTokens := 10, requestOutputTokens := 5
        requestTotalTokens := 15
        costRub := (10 : ℚ) / 1000000 * 129 + (5 : ℚ) / 1000000 * 387 } := by
  refine ⟨computeHistoryTotals_filter h, rfl, ?_⟩
  simp [c6HistoryBackfilled, computeHistoryTotals, historyTotalsStep]

set_option maxRecDepth 8000 in
/-- C7 counterexample: with a configured maximum of 100 characters, a
150-character summarizer reply is stored at length 150 — the effective
budget is `max(200, configured)`, so the stored text exceeds the
configured maximum. -/
theorem claim7_counterexample :
    (compactText (aStr 150) (some 100)).length = 150 ∧
    ¬ (compactText (aStr 150) (some 100)).length ≤ 100 :=
  ⟨by decide, by decide⟩

/-- C7 amended: the stored text's length never exceeds the *effective*
maximum `max(200, configured ‖ 1400)`; a trimmed reply within that budget
is kept as-is; and whenever the configured maximum is a number ≥ 200 the
stored text's length never exceeds the configured maximum itself (below
200, the bound is 200 instead). -/
theorem claim7_compaction (text : String) (mc : Option ℤ) :
    ((compactText text mc).length : ℤ) ≤ max 200 (jsOr mc 1400) ∧
    (((trimChars text.toList).length : ℤ) ≤ max 200 (jsOr mc 1400) →
      compactText text mc = jsTrim text) ∧
    (∀ c : ℤ, 200 ≤ c → ((compactText text (some c)).length : ℤ) ≤ c) := by
  refine ⟨compactText_length_le text mc, compactText_of_fits text mc, ?_⟩
  intro c hc
  have h := compactText_length_le text (some c)
  have hj : jsOr (some c) 1400 = c := by
    simp only [jsOr]
    rw [if_neg (by omega)]
  rw [hj, max_eq_right (by omega)] at h
  exact h

/-- C7 witness: a short text under a 250-character configured maximum. -/
theorem claim7_compaction_witness :
    ((compactText "abc" (some 250)).length : ℤ) ≤ max 200 (jsOr (some 250) 1400) ∧
    (((trimChars ("abc" : String).toList).length : ℤ) ≤ max 200 (jsOr (some 250) 1400)) ∧
    compactText "abc" (some 250) = jsTrim "abc" ∧
    (200 : ℤ) ≤ 250 ∧
    ((compactText "abc" (some 250)).length : ℤ) ≤ 250 :=
  ⟨(claim7_compaction "abc" (some 250)).1, by decide,
   (claim7_compaction "abc" (some 250)).2.1 (by decide), by decide,
   (claim7_compaction "abc" (some 250)).2.2 250 (by decide)⟩

/-- C8 counterexample: on a reply whose only output text is whitespace,
the iOS extractor returns the *present* empty string while the web
extractor returns absent — "empty after trimming counts as absent" does
not hold in the iOS variant. -/
theorem claim8_counterexample :
    extractAnswerTextIOS wDtoBlank = some "" ∧ extractAnswerText wDtoBlank = none :=
  ⟨by decide, by decide⟩

/-- C8 amended: the web extractor returns the trimmed text of the first
string-carrying plain-output-text entry of the first assistant message,
absent when the path is missing or the text trims to empty (it never
returns a present empty string); the iOS extractor takes the first
plain-output-text entry and returns its trimmed text, absent only when
the path or text is missing — empty-after-trimming is returned as `""`
there. -/
theorem claim8_extractors (dto : ResponseDTO) :
    extractAnswerText dto = specWebExtract dto ∧
    extractAnswerTextIOS dto = specIOSExtract dto ∧
    (extractAnswerText dto == some "") = false :=
  ⟨extract_eq_specWeb dto, extractIOS_eq_specIOS dto, by
    simpa [beq_eq_false_iff_ne] using extract_ne_some_empty dto⟩

/-- C9 counterexample: a successful exchange whose reply carries
timestamps but no usage — the appended user turn has no
`durationSeconds` while its paired assistant turn carries one, so the
pair's stat fields are not identical. -/
theorem claim9_counterexample :
    ((send wSendDuration (wAgent 0) "Hi").1.history.map Turn.durationSeconds) =
      [none, some 3] ∧
    (send wSendDuration (wAgent 0) "Hi").2.toOption =
      some { answer := "S", model := "zzz", usage := none
             durationSeconds := some 3, costRub := none } :=
  ⟨by decide, by decide⟩

/-- C9 amended: a successful `send` appends exactly the user/assistant
pair; the token and cost fields are always identical on both turns, and
whenever the reply carried usage the duration and model fields agree as
well; when usage is absent the user turn carries no stat fields at all
(while the assistant turn may still carry model and duration). -/
theorem claim9_pairStats (env : SendEnv) (st : AgentState) (userText : String)
    (st' : AgentState) (res : SendResult)
    (h : send env st userText = (st', .ok res)) :
    st'.history.length = st.history.length + 2 ∧
    (st'.history.getD st.history.length defaultTurn).role = .user ∧
    (st'.history.getD (st.history.length + 1) defaultTurn).role = .assistant ∧
    (st'.history.getD st.history.length defaultTurn).requestInputTokens =
      (st'.history.getD (st.history.length + 1) defaultTurn).requestInputTokens ∧
    (st'.history.getD st.history.length defaultTurn).requestOutputTokens =
      (st'.history.getD (st.history.length + 1) defaultTurn).requestOutputTokens ∧
    (st'.history.getD st.history.length defaultTurn).requestTotalTokens =
      (st'.history.getD (st.history.length + 1) defaultTurn).requestTotalTokens ∧
    (st'.history.getD st.history.length defaultTurn).costRub =
      (st'.history.getD (st.history.length + 1) defaultTurn).costRub ∧
    (st'.history.getD st.history.length defaultTurn).requestInputTokens =
      res.usage.map UsageTriple.inputTokens ∧
    (res.usage.isSome →
      (st'.history.getD st.history.length defaultTurn).durationSeconds =
        (st'.history.getD (st.history.length + 1) defaultTurn).durationSeconds ∧
      (st'.history.getD st.history.length defaultTurn).model =
        (st'.history.getD (st.history.length + 1) defaultTurn).model) ∧
    (res.usage = none →
      (st'.history.getD st.history.length defaultTurn).model = none ∧
      (st'.history.getD st.history.length defaultTurn).costRub = none ∧
      (st'.history.getD st.history.length defaultTurn).durationSeconds = none) := by
  obtain ⟨st1, dto, answerText, hens, hh1, hm, hext, hres, hhist⟩ := send_ok_shape h
  have husage : res.usage = normalizeUsage dto := by rw [hres]; rfl
  have hL : st'.history.getD st.history.length defaultTurn =
      (exchangeTurns st userText env.nowUser env.nowAssistant dto answerText).1 := by
    rw [hhist]; exact getD_append_two_left _ _ _ _
  have hR : st'.history.getD (st.history.length + 1) defaultTurn =
      (exchangeTurns st userText env.nowUser env.nowAssistant dto answerText).2 := by
    rw [hhist]; exact getD_append_two_right _ _ _ _
  obtain ⟨f1, f2, f3, f4, f5, f6, f7, f8, f9⟩ :=
    exchangeTurns_fields st userText env.nowUser env.nowAssistant dto answerText
  rw [hL, hR, husage]
  exact ⟨by rw [hhist]; simp, f1, f2, f3, f4, f5, f6, f7, f8, f9⟩

/-- C9 witness: a usage-carrying exchange under an unpriced model. -/
theorem claim9_pairStats_witness :
    send wSendUsage (wAgent 0) "Hi" = (wUsageFinal, .ok wUsageRes) ∧
    wUsageFinal.history.length = (wAgent 0).history.length + 2 ∧
    (wUsageFinal.history.getD (wAgent 0).history.length defaultTurn).requestInputTokens =
      (wUsageFinal.history.getD ((wAgent 0).history.length + 1)
        defaultTurn).requestInputTokens ∧
    (wUsageFinal.history.getD (wAgent 0).history.length defaultTurn).costRub =
      (wUsageFinal.history.getD ((wAgent 0).history.length + 1) defaultTurn).costRub := by
  have h := claim9_pairStats wSendUsage (wAgent 0) "Hi" wUsageFinal wUsageRes rfl
  exact ⟨rfl, h.1, h.2.2.2.1, h.2.2.2.2.2.2.1⟩

/-- C10 counterexample: a configured chunk size of 0 is falsy, so
`Number(chunkSize) || 10` substitutes the default 10 — the effective
chunk size is 10, not 2 as the claim states. -/
theorem claim10_counterexample :
    effectiveChunkSize { defaultContextPolicy with chunkSize := some 0 } = 10 ∧
    ¬ effectiveChunkSize { defaultContextPolicy with chunkSize := some 0 } = 2 :=
  ⟨by decide, by decide⟩

/-- C10 amended: the effective tail size is `max(0, keepLastMessages)`
with 0 substituted when non-numeric; the effective chunk size is
`max(2, chunkSize)` with 10 substituted when non-numeric *or zero* (so a
chunk size of 1 behaves as 2 but 0 behaves as 10, and single-turn
summaries never occur); and every range the eligibility check yields is
valid: non-empty, non-negative and within the history. -/
theorem claim10_clamping (p : ContextPolicy) (st : AgentState) (r : SumRange)
    (hr : needsSummarize st = some r) :
    effectiveTailSize p = max 0 (jsOr p.keepLastMessages 0) ∧
    effectiveChunkSize p = max 2 (jsOr p.chunkSize 10) ∧
    0 ≤ effectiveTailSize p ∧
    2 ≤ effectiveChunkSize p ∧
    effectiveTailSize { p with keepLastMessages := none } = 0 ∧
    effectiveChunkSize { p with chunkSize := none } = 10 ∧
    effectiveChunkSize { p with chunkSize := some 0 } = 10 ∧
    effectiveChunkSize { p with chunkSize := some 1 } = 2 ∧
    (0 ≤ r.fromIndex ∧ r.fromIndex ≤ r.toIndex ∧
      r.toIndex < (st.history.length : ℤ)) := by
  obtain ⟨hf, ht, hkl, hle⟩ := needsSummarize_some hr
  have hu := summarizedUntilExclusive_nonneg st
  have hc := effectiveChunkSize_ge st.contextPolicy
  have hk := effectiveTailSize_nonneg st.contextPolicy
  refine ⟨rfl, rfl, effectiveTailSize_nonneg p, effectiveChunkSize_ge p,
    ?_, ?_, ?_, ?_, by omega, by omega, by omega⟩
  · simp [effectiveTailSize, jsOr]
  · simp [effectiveChunkSize, jsOr]
  · simp [effectiveChunkSize, jsOr]
  · simp [effectiveChunkSize, jsOr]

/-- C10 witness: the default policy and the 25-turn agent's range. -/
theorem claim10_clamping_witness :
    needsSummarize (wAgent 25) = some { fromIndex := 0, toIndex := 9 } ∧
    effectiveChunkSize { defaultContextPolicy with chunkSize := some 1 } = 2 ∧
    effectiveChunkSize { defaultContextPolicy with chunkSize := some 0 } = 10 ∧
    ((0 : ℤ) ≤ (0 : ℤ) ∧ (0 : ℤ) ≤ (9 : ℤ) ∧ (9 : ℤ) < ((wAgent 25).history.length : ℤ)) := by
  have h := claim10_clamping defaultContextPolicy (wAgent 25)
    { fromIndex := 0, toIndex := 9 } (by decide)
  exact ⟨by decide, h.2.2.2.2.2.2.2.1, h.2.2.2.2.2.2.1, h.2.2.2.2.2.2.2.2⟩

end AiLabs
